import Mathlib

/-!
Verification of the build orchestration core of toxicmaster
(`toxicmaster/build.py`, `toxicmaster/client.py`).

The Python data model is shallowly embedded: mongomotor documents become
Lean structures, embedded-document lists become `List`s, and the
coroutine methods under scrutiny are translated to pure Lean functions
(database reloads are passed in explicitly as the owning `BuildSet`,
external I/O outcomes are passed in as explicit parameters).
-/

namespace Toxic

/-- Statuses used in builds, ordered by priority
    (`ORDERED_STATUSES` in `build.py`). -/
def ORDERED_STATUSES : List String :=
  ["running", "cancelled", "exception", "fail",
   "warning", "success", "preparing", "pending"]

/-- Priority of a status: its index in `ORDERED_STATUSES`
    (Python `ORDERED_STATUSES.index(i)`; statuses validated by the
    mongoengine `choices` are always present, an absent status gets the
    list length here where Python would raise `ValueError`). -/
def statusPriority (s : String) : Nat := ORDERED_STATUSES.indexOf s

/-- Sort relation used to model Python's
    `sorted(xs, key=lambda i: ORDERED_STATUSES.index(i))`. -/
def statusLE (a b : String) : Prop := statusPriority a ≤ statusPriority b

instance : DecidableRel statusLE := fun a b =>
  inferInstanceAs (Decidable (statusPriority a ≤ statusPriority b))

instance : IsTotal String statusLE := ⟨fun _ _ => Nat.le_total _ _⟩

instance : IsTrans String statusLE := ⟨fun _ _ _ h h' => Nat.le_trans h h'⟩

/-- A `BuildTrigger` embedded document: a configuration for what
    triggers a build. -/
structure BuildTrigger where
  builder_name : String
  statuses : List String
deriving DecidableEq, Repr

/-- A `Build` embedded document. `uuid` identifies the build,
    `builderName` is the name of the referenced `Builder`
    (`(await build.builder).name`), `status` defaults to pending,
    `number` is the sequential number in the repository and
    `triggered_by` the list of trigger rules. -/
structure Build where
  uuid : Nat
  builderName : String
  status : String := "pending"
  number : Nat := 0
  triggered_by : List BuildTrigger := []
deriving DecidableEq, Repr

def Build.PENDING : String := "pending"

/-- A `BuildSet` document: the list of its embedded builds and its
    stored `status` field (which defaults to pending). -/
structure BuildSet where
  builds : List Build := []
  status : String := "pending"
deriving DecidableEq, Repr

def BuildSet.NO_BUILDS : String := "no builds"

def BuildSet.NO_CONFIG : String := "no config"

/-- Translation of `BuildSet.get_status`: with no builds it is
    `NO_BUILDS`; otherwise take the set of the builds' statuses
    (Python `set(...)`, modelled by `dedup`), sort it by status
    priority and take the first element.  The Python set iterates in
    an arbitrary order, but for statuses drawn from
    `ORDERED_STATUSES` the sort keys of distinct statuses are
    distinct, so the sorted list is uniquely determined. -/
def BuildSet.get_status (bs : BuildSet) : String :=
  if bs.builds = [] then BuildSet.NO_BUILDS
  else
    let build_statuses := (bs.builds.map Build.status).dedup
    let ordered_statuses := List.insertionSort statusLE build_statuses
    ordered_statuses.headD ""

/-- Helper: the head of the sorted dedup of a non-empty list is a
    member of the list and minimizes `statusPriority` over it. -/
theorem sortedDedupHead_min (l : List String) (hne : l ≠ []) :
    (List.insertionSort statusLE l.dedup).headD "" ∈ l ∧
      ∀ s ∈ l, statusPriority ((List.insertionSort statusLE l.dedup).headD "")
        ≤ statusPriority s := by
  have hd : l.dedup ≠ [] := by
    intro h
    exact hne ((List.dedup_eq_nil l).mp h)
  have hperm : List.Perm (List.insertionSort statusLE l.dedup) l.dedup :=
    List.perm_insertionSort statusLE l.dedup
  have hsorted : List.Sorted statusLE (List.insertionSort statusLE l.dedup) :=
    List.sorted_insertionSort statusLE l.dedup
  have hsne : List.insertionSort statusLE l.dedup ≠ [] := by
    intro h
    exact hd (List.Perm.eq_nil (h ▸ hperm.symm))
  obtain ⟨a, t, hat⟩ := List.exists_cons_of_ne_nil hsne
  rw [hat]
  simp only [List.headD_cons]
  constructor
  · have : a ∈ List.insertionSort statusLE l.dedup := by
      rw [hat]; exact List.mem_cons_self a t
    exact List.mem_dedup.mp (hperm.subset this)
  · intro s hs
    have hs' : s ∈ List.insertionSort statusLE l.dedup :=
      hperm.symm.subset (List.mem_dedup.mpr hs)
    rw [hat] at hs' hsorted
    rcases List.mem_cons.mp hs' with h | h
    · exact h ▸ Nat.le_refl _
    · exact List.rel_of_sorted_cons hsorted s h

/-- Helper: unfolding of `get_status` on a buildset with builds. -/
theorem get_status_eq_head (bs : BuildSet) (h : bs.builds ≠ []) :
    bs.get_status =
      (List.insertionSort statusLE (bs.builds.map Build.status).dedup).headD "" := by
  rw [BuildSet.get_status, if_neg h]

/-- Helper: a status occurring in a buildset whose statuses are all
    valid is a member of `ORDERED_STATUSES`. -/
theorem status_mem_ordered {bs : BuildSet} {s : String}
    (hval : ∀ b ∈ bs.builds, b.status ∈ ORDERED_STATUSES)
    (hs : s ∈ bs.builds.map Build.status) : s ∈ ORDERED_STATUSES := by
  obtain ⟨b, hb, rfl⟩ := List.mem_map.mp hs
  exact hval b hb

/-- C1: for a BuildSet with a non-empty builds list, `get_status()`
    returns a status occurring among its builds that has minimal index
    in `ORDERED_STATUSES` (i.e. the highest-priority status under
    running > cancelled > exception > fail > warning > success >
    preparing > pending); for an empty builds list it returns the
    `NO_BUILDS` status. -/
theorem buildset_get_status_priority (bs : BuildSet) :
    (bs.builds = [] → bs.get_status = BuildSet.NO_BUILDS) ∧
    (bs.builds ≠ [] →
      bs.get_status ∈ bs.builds.map Build.status ∧
      ∀ b ∈ bs.builds, statusPriority bs.get_status ≤ statusPriority b.status) := by
  constructor
  · intro h
    rw [BuildSet.get_status, if_pos h]
  · intro h
    have hmapne : bs.builds.map Build.status ≠ [] := by
      intro hx
      exact h (List.map_eq_nil_iff.mp hx)
    have hmin := sortedDedupHead_min (bs.builds.map Build.status) hmapne
    rw [get_status_eq_head bs h]
    exact ⟨hmin.1, fun b hb => hmin.2 b.status (List.mem_map_of_mem Build.status hb)⟩

/-- Witness for C1 at a concrete buildset with statuses
    {success, fail}: the result is a member of the statuses and
    priority-minimal. -/
theorem buildset_get_status_priority_witness :
    (BuildSet.mk [⟨1, "A", "success", 1, []⟩, ⟨2, "B", "fail", 2, []⟩]
        "pending").builds ≠ [] ∧
      ((BuildSet.mk [⟨1, "A", "success", 1, []⟩, ⟨2, "B", "fail", 2, []⟩]
          "pending").get_status ∈
        (BuildSet.mk [⟨1, "A", "success", 1, []⟩, ⟨2, "B", "fail", 2, []⟩]
          "pending").builds.map Build.status ∧
      ∀ b ∈ (BuildSet.mk [⟨1, "A", "success", 1, []⟩, ⟨2, "B", "fail", 2, []⟩]
          "pending").builds,
        statusPriority ((BuildSet.mk [⟨1, "A", "success", 1, []⟩,
          ⟨2, "B", "fail", 2, []⟩] "pending").get_status) ≤
          statusPriority b.status) :=
  ⟨by decide,
   (buildset_get_status_priority _).2 (by decide)⟩

/-- C10: `get_status()` depends only on the set of distinct statuses
    among the builds: two buildsets (with arbitrary, possibly
    different, stored `status` fields) whose builds produce the same
    set of statuses get the same `get_status()` value. -/
theorem buildset_get_status_set_invariant (bs1 bs2 : BuildSet)
    (h1 : ∀ b ∈ bs1.builds, b.status ∈ ORDERED_STATUSES)
    (h2 : ∀ b ∈ bs2.builds, b.status ∈ ORDERED_STATUSES)
    (hset : (bs1.builds.map Build.status).toFinset =
      (bs2.builds.map Build.status).toFinset) :
    bs1.get_status = bs2.get_status := by
  by_cases he : bs1.builds = []
  · have he1 : bs1.builds.map Build.status = [] := by rw [he]; rfl
    have he2 : bs2.builds.map Build.status = [] := by
      have : (bs2.builds.map Build.status).toFinset = ∅ := by
        rw [← hset, he1]; rfl
      exact List.toFinset_eq_empty_iff _ |>.mp this
    have he2' : bs2.builds = [] := List.map_eq_nil_iff.mp he2
    rw [BuildSet.get_status, if_pos he, BuildSet.get_status, if_pos he2']
  · have hne1 : bs1.builds.map Build.status ≠ [] := by
      intro hx; exact he (List.map_eq_nil_iff.mp hx)
    have hne2 : bs2.builds.map Build.status ≠ [] := by
      intro hx
      apply hne1
      have : (bs1.builds.map Build.status).toFinset = ∅ := by rw [hset, hx]; rfl
      exact List.toFinset_eq_empty_iff _ |>.mp this
    have he2 : bs2.builds ≠ [] := by
      intro hx; apply hne2; rw [hx]; rfl
    have hmem : ∀ s : String, s ∈ bs1.builds.map Build.status ↔
        s ∈ bs2.builds.map Build.status := by
      intro s
      rw [← List.mem_toFinset, ← List.mem_toFinset, hset]
    have hmin1 := sortedDedupHead_min (bs1.builds.map Build.status) hne1
    have hmin2 := sortedDedupHead_min (bs2.builds.map Build.status) hne2
    rw [get_status_eq_head bs1 he, get_status_eq_head bs2 he2]
    set g1 := (List.insertionSort statusLE
      (bs1.builds.map Build.status).dedup).headD "" with hg1
    set g2 := (List.insertionSort statusLE
      (bs2.builds.map Build.status).dedup).headD "" with hg2
    have hprio : statusPriority g1 = statusPriority g2 :=
      Nat.le_antisymm (hmin1.2 g2 ((hmem g2).mpr hmin2.1))
        (hmin2.2 g1 ((hmem g1).mp hmin1.1))
    have hg1o : g1 ∈ ORDERED_STATUSES := status_mem_ordered h1 hmin1.1
    have hg2o : g2 ∈ ORDERED_STATUSES := status_mem_ordered h2 hmin2.1
    exact (List.indexOf_inj hg1o hg2o).mp hprio

/-- Witness for C10: two buildsets whose builds are a permutation with
    duplication of each other's statuses and whose stored status
    fields differ agree on `get_status()`. -/
theorem buildset_get_status_set_invariant_witness :
    (∀ b ∈ (BuildSet.mk [⟨1, "A", "success", 1, []⟩, ⟨2, "B", "fail", 2, []⟩,
        ⟨3, "C", "success", 3, []⟩] "pending").builds,
      b.status ∈ ORDERED_STATUSES) ∧
    (∀ b ∈ (BuildSet.mk [⟨7, "D", "fail", 7, []⟩, ⟨8, "E", "success", 8, []⟩]
        "running").builds,
      b.status ∈ ORDERED_STATUSES) ∧
    ((BuildSet.mk [⟨1, "A", "success", 1, []⟩, ⟨2, "B", "fail", 2, []⟩,
        ⟨3, "C", "success", 3, []⟩] "pending").builds.map Build.status).toFinset =
      ((BuildSet.mk [⟨7, "D", "fail", 7, []⟩, ⟨8, "E", "success", 8, []⟩]
        "running").builds.map Build.status).toFinset ∧
    (BuildSet.mk [⟨1, "A", "success", 1, []⟩, ⟨2, "B", "fail", 2, []⟩,
        ⟨3, "C", "success", 3, []⟩] "pending").get_status =
      (BuildSet.mk [⟨7, "D", "fail", 7, []⟩, ⟨8, "E", "success", 8, []⟩]
        "running").get_status :=
  ⟨by decide, by decide, by decide,
   buildset_get_status_set_invariant _ _ (by decide) (by decide) (by decide)⟩

/-! ## Trigger rules (`Build.is_ready2run` / `Build._check_build_rules`) -/

/-- Lookup in the `rules` dict of `_check_build_rules`.  The dict is
    built by iterating `triggered_by` and assigning
    `rules[doc.builder_name] = doc.statuses`, so for duplicate builder
    names the last entry wins; lookup is by the builder name
    (`MatchKeysDict` from toxiccore, used here with the plain builder
    names the manager stores). -/
def rulesGet (tb : List BuildTrigger) (name : String) : Option (List String) :=
  ((tb.filter (fun d => d.builder_name == name)).getLast?).map BuildTrigger.statuses

/-- Loop body of `_check_build_rules` over the sibling builds of the
    buildset: skip the build itself, skip siblings with no rule for
    their builder (or an empty, hence falsy, rule) and pending
    siblings; return `none` (Python `None`) on the first sibling whose
    status is outside its rule; count every sibling whose status is in
    its rule. -/
def checkRulesLoop (selfUuid : Nat) (tb : List BuildTrigger) :
    List Build → Nat → Option Nat
  | [], ok => some ok
  | b :: rest, ok =>
    if b.uuid == selfUuid then checkRulesLoop selfUuid tb rest ok
    else
      match rulesGet tb b.builderName with
      | none => checkRulesLoop selfUuid tb rest ok
      | some ss =>
        if ss.isEmpty || b.status == Build.PENDING then
          checkRulesLoop selfUuid tb rest ok
        else if ss.contains b.status then
          checkRulesLoop selfUuid tb rest (ok + 1)
        else none

/-- Translation of `Build._check_build_rules`: run the loop over the
    buildset's builds and compare the count of satisfied siblings with
    the number of `triggered_by` rules. -/
def Build.check_build_rules (self : Build) (buildset : BuildSet) : Option Bool :=
  match checkRulesLoop self.uuid self.triggered_by buildset.builds 0 with
  | none => none
  | some ok => some (ok == self.triggered_by.length)

/-- Translation of `Build.is_ready2run`.  The store reload
    (`Build.get(self.uuid)` / `get_buildset()`) is modelled by looking
    the uuid up in the owning buildset `store` (the first matching
    embedded build, as the aggregation pipeline returns).  The result
    is `some true` / `some false` for Python `True` / `False` and
    `none` for Python `None` (build must be cancelled). -/
def Build.is_ready2run (self : Build) (store : BuildSet) : Option Bool :=
  match store.builds.find? (fun b => b.uuid == self.uuid) with
  | none => some false
  | some b =>
    if b.status != Build.PENDING then some false
    else if self.triggered_by.isEmpty then some true
    else Build.check_build_rules { self with status := b.status } store

/-- Claim-side predicate: a sibling that makes the trigger rules
    permanently unsatisfiable (distinct uuid, its builder has a
    non-empty rule, it is not pending, and its status is outside the
    rule). -/
def ruleViolated (selfUuid : Nat) (tb : List BuildTrigger) (b : Build) : Bool :=
  b.uuid != selfUuid &&
    match rulesGet tb b.builderName with
    | none => false
    | some ss => !ss.isEmpty && b.status != Build.PENDING && !ss.contains b.status

/-- Claim-side predicate: a sibling counted as satisfying by
    `_check_build_rules` (distinct uuid, non-empty rule for its
    builder, not pending, status inside the rule). -/
def ruleSatisfied (selfUuid : Nat) (tb : List BuildTrigger) (b : Build) : Bool :=
  b.uuid != selfUuid &&
    match rulesGet tb b.builderName with
    | none => false
    | some ss => !ss.isEmpty && b.status != Build.PENDING && ss.contains b.status

/-- Helper: characterization of the `_check_build_rules` loop.  It
    returns `none` exactly when some sibling violates its rule, and
    otherwise the accumulator plus the count of satisfying siblings. -/
theorem checkRulesLoop_characterization (selfUuid : Nat)
    (tb : List BuildTrigger) :
    ∀ (l : List Build) (ok : Nat),
      checkRulesLoop selfUuid tb l ok =
        if l.any (ruleViolated selfUuid tb) then none
        else some (ok + l.countP (ruleSatisfied selfUuid tb)) := by
  intro l
  induction l with
  | nil => intro ok; simp [checkRulesLoop]
  | cons b rest ih =>
    intro ok
    by_cases hu : (b.uuid == selfUuid) = true
    · have hv : ruleViolated selfUuid tb b = false := by
        simp [ruleViolated, bne, hu]
      have hs : ruleSatisfied selfUuid tb b = false := by
        simp [ruleSatisfied, bne, hu]
      simp [checkRulesLoop, hu, List.any_cons, List.countP_cons, hv, hs, ih]
    · have hu' : (b.uuid == selfUuid) = false := by
        cases hx : (b.uuid == selfUuid)
        · rfl
        · exact absurd hx hu
      cases hr : rulesGet tb b.builderName with
      | none =>
        have hv : ruleViolated selfUuid tb b = false := by
          simp [ruleViolated, hr]
        have hs : ruleSatisfied selfUuid tb b = false := by
          simp [ruleSatisfied, hr]
        simp [checkRulesLoop, hu', hr, List.any_cons, List.countP_cons,
          hv, hs, ih]
      | some ss =>
        by_cases hskip : (ss.isEmpty || b.status == Build.PENDING) = true
        · have hv : ruleViolated selfUuid tb b = false := by
            rcases Bool.or_eq_true _ _ |>.mp hskip with h | h
            · simp [ruleViolated, hr, h]
            · simp [ruleViolated, hr, bne, h]
          have hs : ruleSatisfied selfUuid tb b = false := by
            rcases Bool.or_eq_true _ _ |>.mp hskip with h | h
            · simp [ruleSatisfied, hr, h]
            · simp [ruleSatisfied, hr, bne, h]
          simp [checkRulesLoop, hu', hr, hskip, List.any_cons,
            List.countP_cons, hv, hs, ih]
        · have hemp : ss.isEmpty = false := by
            cases hx : ss.isEmpty
            · rfl
            · exact absurd (by simp [hx]) hskip
          have hpend : (b.status == Build.PENDING) = false := by
            cases hx : (b.status == Build.PENDING)
            · rfl
            · exact absurd (by simp [hx]) hskip
          have hne1 : ¬ b.uuid = selfUuid := by simpa using hu'
          have hne2 : ¬ ss = [] := by simpa using hemp
          have hne3 : ¬ b.status = Build.PENDING := by simpa using hpend
          by_cases hcont : ss.contains b.status = true
          · have hmem : b.status ∈ ss := by simpa using hcont
            have hv : ruleViolated selfUuid tb b = false := by
              simp [ruleViolated, hr, hmem]
            have hs : ruleSatisfied selfUuid tb b = true := by
              simp [ruleSatisfied, hr, hne1, hne2, hne3, hmem]
            have hstep : checkRulesLoop selfUuid tb (b :: rest) ok =
                checkRulesLoop selfUuid tb rest (ok + 1) := by
              simp [checkRulesLoop, hne1, hne2, hne3, hr, hmem]
            rw [hstep, ih]
            have hany : (b :: rest).any (ruleViolated selfUuid tb) =
                rest.any (ruleViolated selfUuid tb) := by
              simp [List.any_cons, hv]
            have hcount : (b :: rest).countP (ruleSatisfied selfUuid tb) =
                rest.countP (ruleSatisfied selfUuid tb) + 1 := by
              simp [List.countP_cons, hs]
            rw [hany, hcount]
            by_cases ha : rest.any (ruleViolated selfUuid tb) = true
            · simp [ha]
            · have ha' : rest.any (ruleViolated selfUuid tb) = false := by
                cases hx : rest.any (ruleViolated selfUuid tb)
                · rfl
                · exact absurd hx ha
              simp only [ha', if_false, Bool.false_eq_true]
              congr 1
              omega
          · have hcontF : ss.contains b.status = false := by
              cases hx : ss.contains b.status
              · rfl
              · exact absurd hx hcont
            have hnmem : b.status ∉ ss := by simpa using hcontF
            have hv : ruleViolated selfUuid tb b = true := by
              simp [ruleViolated, hr, hne1, hne2, hne3, hnmem]
            have hstep : checkRulesLoop selfUuid tb (b :: rest) ok = none := by
              simp [checkRulesLoop, hne1, hne2, hne3, hr, hnmem]
            rw [hstep]
            simp [List.any_cons, hv]
/-- Build used in the C2 counterexample: pending, triggered by
    B1:success and B2:success. -/
def c2self : Build :=
  ⟨0, "B0", "pending", 0, [⟨"B1", ["success"]⟩, ⟨"B2", ["success"]⟩]⟩

/-- Buildset used in the C2 counterexample: two siblings of builder B1
    both succeeded, the sibling of builder B2 is still pending. -/
def c2store : BuildSet :=
  ⟨[c2self, ⟨1, "B1", "success", 0, []⟩, ⟨2, "B1", "success", 0, []⟩,
    ⟨3, "B2", "pending", 0, []⟩], "pending"⟩

/-- Counterexample to C2 as stated: the code counts satisfied sibling
    builds, not satisfied rules, so with two successful B1 siblings and
    the B2 sibling still pending `is_ready2run` returns true, although
    no sibling of B2 has a status in its rule (the claim mandates
    false while a rule's sibling is pending). -/
theorem is_ready2run_claim_counterexample :
    Build.is_ready2run c2self c2store = some true ∧
    ¬ (∀ r ∈ c2self.triggered_by, ∃ b ∈ c2store.builds,
        b.builderName = r.builder_name ∧ b.status ∈ r.statuses) ∧
    (∃ r ∈ c2self.triggered_by, ∃ b ∈ c2store.builds,
        b.builderName = r.builder_name ∧ b.status = Build.PENDING) :=
  ⟨by decide, by decide, by decide⟩

/-- C2 (amended): `is_ready2run` returns false when the build is gone
    from the store or its stored status is not pending; true when it is
    pending with no `triggered_by`; with rules it returns None iff some
    sibling with a (non-empty) rule for its builder is non-pending with
    a status outside the rule, and — absent such a violation — true iff
    the number of counted siblings (non-self, ruled, non-pending,
    status inside the rule) equals the number of `triggered_by` rules
    (so several siblings of one ruled builder may stand in for the
    missing ones), and false otherwise. -/
theorem is_ready2run_characterization (self : Build) (store : BuildSet) :
    (store.builds.find? (fun b => b.uuid == self.uuid) = none →
      self.is_ready2run store = some false) ∧
    (∀ b, store.builds.find? (fun b2 => b2.uuid == self.uuid) = some b →
      (b.status ≠ Build.PENDING → self.is_ready2run store = some false) ∧
      (b.status = Build.PENDING → self.triggered_by = [] →
        self.is_ready2run store = some true) ∧
      (b.status = Build.PENDING → self.triggered_by ≠ [] →
        ((self.is_ready2run store = none ↔
          ∃ s ∈ store.builds,
            ruleViolated self.uuid self.triggered_by s = true) ∧
        (self.is_ready2run store = some true ↔
          ((∀ s ∈ store.builds,
              ruleViolated self.uuid self.triggered_by s = false) ∧
            store.builds.countP (ruleSatisfied self.uuid self.triggered_by) =
              self.triggered_by.length))))) := by
  constructor
  · intro h
    simp [Build.is_ready2run, h]
  · intro b hfind
    refine ⟨?_, ?_, ?_⟩
    · intro hne
      have : (b.status != Build.PENDING) = true := by simpa using hne
      simp [Build.is_ready2run, hfind, this]
    · intro hpend htb
      simp [Build.is_ready2run, hfind, hpend, htb]
    · intro hpend htb
      have hloop := checkRulesLoop_characterization self.uuid
        self.triggered_by store.builds 0
      have hres : self.is_ready2run store =
          Build.check_build_rules { self with status := b.status } store := by
        have h1 : (b.status != Build.PENDING) = false := by simp [hpend]
        have h2 : self.triggered_by.isEmpty = false := by
          simpa using htb
        simp [Build.is_ready2run, hfind, h1, h2]
      rw [hres]
      unfold Build.check_build_rules
      simp only
      rw [hloop]
      by_cases hany :
          store.builds.any (ruleViolated self.uuid self.triggered_by) = true
      · rw [if_pos hany]
        constructor
        · simp only [true_iff]
          exact List.any_eq_true.mp hany
        · constructor
          · intro hx
            exact absurd hx (by simp)
          · intro ⟨hall, _⟩
            obtain ⟨x, hx, hvx⟩ := List.any_eq_true.mp hany
            rw [hall x hx] at hvx
            exact absurd hvx (by simp)
      · have hany2 :
            store.builds.any (ruleViolated self.uuid self.triggered_by) = false := by
          cases hx : store.builds.any (ruleViolated self.uuid self.triggered_by)
          · rfl
          · exact absurd hx hany
        rw [if_neg hany]
        constructor
        · constructor
          · intro hx
            exact absurd hx (by simp)
          · intro ⟨x, hx, hvx⟩
            exact absurd (List.any_eq_true.mpr ⟨x, hx, hvx⟩) hany
        · rw [Nat.zero_add]
          constructor
          · intro hx
            have := Option.some.inj hx
            refine ⟨fun s hs =>
              Bool.eq_false_iff.mpr (List.any_eq_false.mp hany2 s hs),
              by simpa using this⟩
          · intro ⟨_, hcount⟩
            simp [hcount]

/-- Witness for the amended C2 at a concrete pending build whose one
    rule B1:success is satisfied by a successful B1 sibling:
    `is_ready2run` returns true via the characterization. -/
theorem is_ready2run_characterization_witness :
    ((BuildSet.mk [⟨10, "B0", "pending", 0, [⟨"B1", ["success"]⟩]⟩,
        ⟨11, "B1", "success", 0, []⟩] "pending").builds.find?
      (fun b2 => b2.uuid ==
        (Build.mk 10 "B0" "pending" 0 [⟨"B1", ["success"]⟩]).uuid) =
      some (Build.mk 10 "B0" "pending" 0 [⟨"B1", ["success"]⟩])) ∧
    Build.is_ready2run (Build.mk 10 "B0" "pending" 0 [⟨"B1", ["success"]⟩])
      (BuildSet.mk [⟨10, "B0", "pending", 0, [⟨"B1", ["success"]⟩]⟩,
        ⟨11, "B1", "success", 0, []⟩] "pending") = some true :=
  ⟨by decide,
    (((is_ready2run_characterization
      (Build.mk 10 "B0" "pending" 0 [⟨"B1", ["success"]⟩])
      (BuildSet.mk [⟨10, "B0", "pending", 0, [⟨"B1", ["success"]⟩]⟩,
        ⟨11, "B1", "success", 0, []⟩] "pending")).2
      (Build.mk 10 "B0" "pending" 0 [⟨"B1", ["success"]⟩])
      (by decide)).2.2 rfl (by decide)).2.mpr ⟨by decide, by decide⟩⟩

/-! ## Build numbering (`BuildManager._get_highest_build_number`,
    `_handle_build_triggered_by`, `add_builds_for_buildset`) -/

/-- A `Builder` document: its name, the revision-scoped
    `triggered_by` rules attached from the config, and its position. -/
structure Builder where
  name : String
  triggered_by : List BuildTrigger := []
  position : Nat := 10000
deriving DecidableEq, Repr

/-- Maximum of a list of naturals (0 on the empty list); models
    Python `max(...)` on lists of non-negative build numbers. -/
def maxList (l : List Nat) : Nat := l.foldr max 0

/-- Maximum build number inside one buildset
    (`max([b.number for b in buildset.builds]) if buildset.builds
    else 0`). -/
def buildsetMaxNumber (bs : BuildSet) : Nat :=
  if bs.builds = [] then 0 else maxList (bs.builds.map Build.number)

/-- Descending comparison on buildsets used to model the MongoDB
    `order_by(-builds__number)`: a descending sort on an array field
    sorts by the maximum element of the array. -/
def bsetGE (x y : BuildSet) : Prop :=
  buildsetMaxNumber y ≤ buildsetMaxNumber x

instance : DecidableRel bsetGE := fun x y =>
  inferInstanceAs (Decidable (buildsetMaxNumber y ≤ buildsetMaxNumber x))

instance : IsTotal BuildSet bsetGE := ⟨fun _ _ => Nat.le_total _ _⟩

instance : IsTrans BuildSet bsetGE := ⟨fun _ _ _ h h2 => Nat.le_trans h2 h⟩

/-- Translation of `BuildManager._get_highest_build_number`: restrict
    to the repository buildsets having some build with number > 0
    (`builds__number__gt=0`), order them by descending maximum build
    number and take the first; its maximum build number (0 when there
    is no such buildset or it has no builds). -/
def getHighestBuildNumber (sets : List BuildSet) : Nat :=
  let candidates :=
    sets.filter (fun bs => bs.builds.any (fun b => decide (0 < b.number)))
  match (List.insertionSort bsetGE candidates).head? with
  | none => 0
  | some bset =>
    if bset.builds = [] then 0 else maxList (bset.builds.map Build.number)

/-- Translation of `BuildManager._handle_build_triggered_by`: keep
    only the trigger rules whose builder name is the name of some
    builder in the current builder set. -/
def handleBuildTriggeredBy (tb : List BuildTrigger) (builders : List Builder) :
    List BuildTrigger :=
  let builder_names := builders.map Builder.name
  tb.filter (fun rule => builder_names.contains rule.builder_name)

/-- The builder loop of `add_builds_for_buildset`: for each builder
    increment `last_build` and create a Build with that number, the
    builder's name and its `triggered_by` filtered against the current
    builder set `all` (the uuid, branch and named tree fields play no
    role in the claims and the uuid is fixed to 0 here). -/
def mkBuilds : Nat → List Builder → List Builder → List Build
  | _, [], _ => []
  | last, bd :: rest, all =>
    { uuid := 0, builderName := bd.name, status := "pending",
      number := last + 1,
      triggered_by := handleBuildTriggeredBy bd.triggered_by all } ::
      mkBuilds (last + 1) rest all

/-- Translation of `BuildManager.add_builds_for_buildset` restricted
    to its persistent effect on the repository's buildsets: compute
    the highest existing build number and append the new buildset with
    the numbered builds. -/
def addBuildsForBuildset (sets : List BuildSet) (builders : List Builder) :
    List BuildSet :=
  let last := getHighestBuildNumber sets
  sets ++ [{ builds := mkBuilds last builders builders, status := "pending" }]

/-- A sequence of `add_builds_for_buildset` calls on one repository,
    starting from no buildsets. -/
def runAddBuilds (calls : List (List Builder)) : List BuildSet :=
  calls.foldl addBuildsForBuildset []

/-- All build numbers assigned in a repository's buildsets. -/
def allBuildNumbers (sets : List BuildSet) : List Nat :=
  (sets.map (fun bs => bs.builds.map Build.number)).flatten

/-- Helper: members bound the fold maximum. -/
theorem le_maxList {l : List Nat} {x : Nat} (hx : x ∈ l) : x ≤ maxList l := by
  induction l with
  | nil => cases hx
  | cons a t ih =>
    rcases List.mem_cons.mp hx with h | h
    · exact h ▸ Nat.le_max_left _ _
    · exact Nat.le_trans (ih h) (Nat.le_max_right _ _)

/-- Helper: the fold maximum is below any upper bound of the list. -/
theorem maxList_le {l : List Nat} {n : Nat} (h : ∀ x ∈ l, x ≤ n) :
    maxList l ≤ n := by
  induction l with
  | nil => exact Nat.zero_le n
  | cons a t ih =>
    exact Nat.max_le.mpr ⟨h a (List.mem_cons_self a t),
      ih (fun x hx => h x (List.mem_cons_of_mem a hx))⟩

/-- Helper: `maxList` over an append. -/
theorem maxList_append (l1 l2 : List Nat) :
    maxList (l1 ++ l2) = max (maxList l1) (maxList l2) := by
  induction l1 with
  | nil => simp [maxList]
  | cons a t ih =>
    simp only [List.cons_append, maxList, List.foldr_cons] at ih ⊢
    rw [ih, Nat.max_assoc]

/-- Helper: `maxList` of a flattened map is the `maxList` of the
    per-element maxima. -/
theorem maxList_flatten_map (f : BuildSet → List Nat) (sets : List BuildSet) :
    maxList ((sets.map f).flatten) = maxList (sets.map (fun bs => maxList (f bs))) := by
  induction sets with
  | nil => rfl
  | cons bs rest ih =>
    simp only [List.map_cons, List.flatten_cons, maxList_append, ih]
    simp [maxList]

/-- Helper: dropping elements that do not pass the filter does not
    change the maximum when those elements contribute 0. -/
theorem maxList_filter_map (p : BuildSet → Bool) (f : BuildSet → Nat)
    (sets : List BuildSet) (h0 : ∀ bs ∈ sets, p bs = false → f bs = 0) :
    maxList ((sets.filter p).map f) = maxList (sets.map f) := by
  induction sets with
  | nil => rfl
  | cons bs rest ih =>
    have hrest := ih (fun x hx hp => h0 x (List.mem_cons_of_mem bs hx) hp)
    cases hp : p bs
    · rw [List.filter_cons_of_neg (by simp [hp])]
      rw [hrest]
      simp only [List.map_cons, maxList, List.foldr_cons]
      rw [h0 bs (List.mem_cons_self bs rest) hp]
      simp [maxList]
    · rw [List.filter_cons_of_pos (by simp [hp])]
      simp only [List.map_cons, maxList, List.foldr_cons]
      rw [← maxList, ← maxList, hrest]

/-- Helper: a buildset rejected by the `builds__number__gt=0` filter
    has maximum build number 0. -/
theorem rejected_buildset_max_zero (bs : BuildSet)
    (hp : bs.builds.any (fun b => decide (0 < b.number)) = false) :
    buildsetMaxNumber bs = 0 := by
  unfold buildsetMaxNumber
  by_cases hb : bs.builds = []
  · simp [hb]
  · rw [if_neg hb]
    apply Nat.le_antisymm _ (Nat.zero_le _)
    apply maxList_le
    intro x hx
    obtain ⟨b, hbmem, rfl⟩ := List.mem_map.mp hx
    have := List.any_eq_false.mp hp b hbmem
    simpa using this

/-- Helper: `_get_highest_build_number` computes the global maximum
    of the repository's build numbers. -/
theorem getHighestBuildNumber_eq_max (sets : List BuildSet) :
    getHighestBuildNumber sets = maxList (allBuildNumbers sets) := by
  unfold getHighestBuildNumber allBuildNumbers
  rw [maxList_flatten_map]
  have hfil := maxList_filter_map
    (fun bs => bs.builds.any (fun b => decide (0 < b.number)))
    buildsetMaxNumber sets
    (fun bs _ hp => rejected_buildset_max_zero bs hp)
  have heq : ∀ l : List BuildSet,
      l.map (fun bs => maxList (bs.builds.map Build.number)) =
        l.map buildsetMaxNumber := by
    intro l
    apply List.map_congr_left
    intro bs _
    unfold buildsetMaxNumber
    by_cases hb : bs.builds = []
    · simp [hb, maxList]
    · rw [if_neg hb]
  rw [heq, ← hfil]
  set candidates :=
    sets.filter (fun bs => bs.builds.any (fun b => decide (0 < b.number)))
    with hcand
  have hperm : List.Perm (List.insertionSort bsetGE candidates) candidates :=
    List.perm_insertionSort bsetGE candidates
  have hsorted : List.Sorted bsetGE (List.insertionSort bsetGE candidates) :=
    List.sorted_insertionSort bsetGE candidates
  cases hs : (List.insertionSort bsetGE candidates) with
  | nil =>
    have hcnil : candidates = [] := by
      have h2 := hperm.symm
      rw [hs] at h2
      exact h2.eq_nil
    rw [hcnil]
    simp [maxList]
  | cons c t =>
    simp only [hs, List.head?_cons]
    have hc_mem : c ∈ candidates :=
      hperm.subset (hs ▸ List.mem_cons_self c t)
    have hmax : buildsetMaxNumber c = maxList (candidates.map buildsetMaxNumber) := by
      apply Nat.le_antisymm
      · exact le_maxList (List.mem_map_of_mem buildsetMaxNumber hc_mem)
      · apply maxList_le
        intro x hx
        obtain ⟨y, hy, rfl⟩ := List.mem_map.mp hx
        have hy' : y ∈ List.insertionSort bsetGE candidates :=
          hperm.symm.subset hy
        rw [hs] at hy' hsorted
        rcases List.mem_cons.mp hy' with h | h
        · exact h ▸ Nat.le_refl _
        · exact List.rel_of_sorted_cons hsorted y h
    rw [← hmax]
    unfold buildsetMaxNumber
    by_cases hb : c.builds = []
    · simp [hb]
    · rw [if_neg hb]

/-- Helper: the numbers assigned by the builder loop are the
    consecutive range starting right after `last`. -/
theorem mkBuilds_numbers (all : List Builder) :
    ∀ (l : List Builder) (last : Nat),
      (mkBuilds last l all).map Build.number = List.range' (last + 1) l.length := by
  intro l
  induction l with
  | nil => intro last; rfl
  | cons bd rest ih =>
    intro last
    simp only [mkBuilds, List.map_cons, List.length_cons, ih]
    rw [List.range'_succ (last + 1) rest.length 1]

/-- Helper: `maxList` of a consecutive range starting at 1. -/
theorem maxList_range_one : ∀ n : Nat, maxList (List.range' 1 n) = n := by
  intro n
  induction n with
  | zero => rfl
  | succ m ih =>
    have : List.range' 1 (m + 1) = List.range' 1 m ++ [1 + 1 * m] :=
      List.range'_concat 1 m
    rw [this, maxList_append, ih]
    simp [maxList]
    omega

/-- C3: each call of `add_builds_for_buildset` computes the highest
    existing build number (the global maximum over all buildsets of
    the repository, 0 if none) and appends builds carrying the
    consecutive numbers after it; consequently after any sequence of
    calls from an empty repository the assigned numbers are exactly
    1, ..., n_total (`List.range' 1 n`), with no duplicates. -/
theorem add_builds_numbering :
    (∀ sets : List BuildSet,
      getHighestBuildNumber sets = maxList (allBuildNumbers sets)) ∧
    (∀ (sets : List BuildSet) (builders : List Builder),
      allBuildNumbers (addBuildsForBuildset sets builders) =
        allBuildNumbers sets ++
          List.range' (getHighestBuildNumber sets + 1) builders.length) ∧
    (∀ calls : List (List Builder),
      allBuildNumbers (runAddBuilds calls) =
        List.range' 1 (calls.map List.length).sum ∧
      (allBuildNumbers (runAddBuilds calls)).Nodup) := by
  have happend : ∀ (sets : List BuildSet) (builders : List Builder),
      allBuildNumbers (addBuildsForBuildset sets builders) =
        allBuildNumbers sets ++
          List.range' (getHighestBuildNumber sets + 1) builders.length := by
    intro sets builders
    unfold addBuildsForBuildset allBuildNumbers
    rw [List.map_append, List.flatten_append]
    simp [mkBuilds_numbers]
  refine ⟨getHighestBuildNumber_eq_max, happend, ?_⟩
  have main : ∀ (calls : List (List Builder)) (sets : List BuildSet) (n : Nat),
      allBuildNumbers sets = List.range' 1 n →
      allBuildNumbers (calls.foldl addBuildsForBuildset sets) =
        List.range' 1 (n + (calls.map List.length).sum) := by
    intro calls
    induction calls with
    | nil =>
      intro sets n h
      simpa using h
    | cons bs rest ih =>
      intro sets n h
      have hhigh : getHighestBuildNumber sets = n := by
        rw [getHighestBuildNumber_eq_max, h, maxList_range_one]
      have hstep : allBuildNumbers (addBuildsForBuildset sets bs) =
          List.range' 1 (n + bs.length) := by
        rw [happend, h, hhigh]
        have hrng := List.range'_append_1 1 n bs.length
        rw [Nat.add_comm 1 n] at hrng
        exact hrng.trans (by rw [Nat.add_comm bs.length n])
      simp only [List.foldl_cons]
      rw [ih (addBuildsForBuildset sets bs) (n + bs.length) hstep]
      simp only [List.map_cons, List.sum_cons]
      congr 1
      omega
  intro calls
  have h := main calls [] 0 rfl
  rw [Nat.zero_add] at h
  exact ⟨h, h ▸ List.nodup_range' ..⟩

/-- C8: `add_builds_for_buildset` appends exactly the builds made by
    the builder loop, and every appended build's `triggered_by` list
    is its builder's `triggered_by` filtered, keeping order, to the
    rules whose builder name is the name of some builder in the
    current builder set. -/
theorem add_builds_triggered_by_filtered (sets : List BuildSet)
    (builders : List Builder) :
    addBuildsForBuildset sets builders =
      sets ++ [BuildSet.mk
        (mkBuilds (getHighestBuildNumber sets) builders builders)
        "pending"] ∧
    ∀ bld ∈ mkBuilds (getHighestBuildNumber sets) builders builders,
      ∃ bd ∈ builders, bld.builderName = bd.name ∧
        List.Sublist bld.triggered_by bd.triggered_by ∧
        ∀ r : BuildTrigger, r ∈ bld.triggered_by ↔
          (r ∈ bd.triggered_by ∧ r.builder_name ∈ builders.map Builder.name) := by
  constructor
  · rfl
  · have hmem : ∀ (l : List Builder) (last : Nat) (bld : Build),
        bld ∈ mkBuilds last l builders →
        ∃ bd ∈ l, bld.builderName = bd.name ∧
          bld.triggered_by = handleBuildTriggeredBy bd.triggered_by builders := by
      intro l
      induction l with
      | nil => intro last bld h; cases h
      | cons bd rest ih =>
        intro last bld h
        rcases List.mem_cons.mp h with h | h
        · exact ⟨bd, List.mem_cons_self bd rest, by rw [h], by rw [h]⟩
        · obtain ⟨bd2, hbd2, hname, htb⟩ := ih (last + 1) bld h
          exact ⟨bd2, List.mem_cons_of_mem bd hbd2, hname, htb⟩
    intro bld hbld
    obtain ⟨bd, hbd, hname, htb⟩ :=
      hmem builders (getHighestBuildNumber sets) bld hbld
    refine ⟨bd, hbd, hname, ?_, ?_⟩
    · rw [htb]
      exact List.filter_sublist bd.triggered_by
    · intro r
      rw [htb]
      unfold handleBuildTriggeredBy
      simp [List.mem_filter]

/-- Witness for C8: with builders A (triggered by B:success and
    C:fail) and B, the appended A-build keeps only the rule naming B;
    derived through the theorem at that concrete input. -/
theorem add_builds_triggered_by_filtered_witness :
    (Build.mk 0 "A" "pending" 1
        [⟨"B", ["success"]⟩] ∈
      mkBuilds (getHighestBuildNumber [])
        [Builder.mk "A" [⟨"B", ["success"]⟩, ⟨"C", ["fail"]⟩] 0,
         Builder.mk "B" [] 1]
        [Builder.mk "A" [⟨"B", ["success"]⟩, ⟨"C", ["fail"]⟩] 0,
         Builder.mk "B" [] 1]) ∧
    (∃ bd ∈ [Builder.mk "A" [⟨"B", ["success"]⟩, ⟨"C", ["fail"]⟩] 0,
         Builder.mk "B" [] 1],
      (Build.mk 0 "A" "pending" 1 [⟨"B", ["success"]⟩]).builderName = bd.name ∧
      List.Sublist (Build.mk 0 "A" "pending" 1
        [⟨"B", ["success"]⟩]).triggered_by bd.triggered_by ∧
      ∀ r : BuildTrigger,
        r ∈ (Build.mk 0 "A" "pending" 1 [⟨"B", ["success"]⟩]).triggered_by ↔
          (r ∈ bd.triggered_by ∧ r.builder_name ∈
            ([Builder.mk "A" [⟨"B", ["success"]⟩, ⟨"C", ["fail"]⟩] 0,
              Builder.mk "B" [] 1].map Builder.name))) :=
  ⟨by decide,
   (add_builds_triggered_by_filtered []
      [Builder.mk "A" [⟨"B", ["success"]⟩, ⟨"C", ["fail"]⟩] 0,
       Builder.mk "B" [] 1]).2
    (Build.mk 0 "A" "pending" 1 [⟨"B", ["success"]⟩]) (by decide)⟩

/-! ## Build cancellation (`Build.cancel`) -/

/-- Outcome of `Build.cancel`: either the `ImpossibleCancellation`
    exception or the returned boolean. -/
inductive CancelOutcome
  | impossibleCancellation
  | returned (b : Bool)
deriving DecidableEq, Repr

/-- Observable effects of one `Build.cancel` call:
    `cancelRequested` records `slave.cancel_build` being called,
    `dequeued` records `slave.dequeue_build`, `newStatus` the build
    status afterwards, `updatedDB` the atomic partial update
    (`self.update()`), `emittedCancelled` the `build_cancelled`
    signal. -/
structure CancelEffects where
  cancelRequested : Bool
  dequeued : Bool
  newStatus : String
  updatedDB : Bool
  emittedCancelled : Bool
deriving DecidableEq, Repr

/-- Translation of `Build.cancel`.  `slaveAssigned` tells whether
    `await self.slave` is a slave (pending builds may have none);
    `cancelRequestRaises` tells whether the forwarded
    `slave.cancel_build` call raises (any exception). -/
def Build.cancel (self : Build) (slaveAssigned : Bool)
    (cancelRequestRaises : Bool) : CancelOutcome × CancelEffects :=
  let cancel_statuses := [Build.PENDING, "running"]
  if self.status ∉ cancel_statuses then
    (CancelOutcome.impossibleCancellation,
     ⟨false, false, self.status, false, false⟩)
  else if self.status = "running" then
    if cancelRequestRaises then
      (CancelOutcome.returned false, ⟨true, false, self.status, false, false⟩)
    else
      (CancelOutcome.returned true, ⟨true, false, self.status, false, false⟩)
  else
    (CancelOutcome.returned true,
     ⟨false, slaveAssigned, "cancelled", true, true⟩)

/-- C4: `cancel()` raises `ImpossibleCancellation` exactly when the
    status is neither pending nor running; on a pending build it
    dequeues when a slave is assigned, persists status cancelled,
    emits build-cancelled and returns true; on a running build it only
    forwards the cancel request (no local state change) and returns
    false when the request raises. -/
theorem build_cancel_spec (self : Build) (slaveAssigned : Bool)
    (cancelRequestRaises : Bool) :
    ((self.cancel slaveAssigned cancelRequestRaises).1 =
        CancelOutcome.impossibleCancellation ↔
      (self.status ≠ Build.PENDING ∧ self.status ≠ "running")) ∧
    (self.status = Build.PENDING →
      self.cancel slaveAssigned cancelRequestRaises =
        (CancelOutcome.returned true,
         ⟨false, slaveAssigned, "cancelled", true, true⟩)) ∧
    (self.status = "running" →
      (self.cancel slaveAssigned cancelRequestRaises).2 =
        ⟨true, false, self.status, false, false⟩ ∧
      (cancelRequestRaises = true →
        (self.cancel slaveAssigned cancelRequestRaises).1 =
          CancelOutcome.returned false)) := by
  by_cases hp : self.status = Build.PENDING
  · have hr : self.status ≠ "running" := by
      rw [hp]
      decide
    refine ⟨?_, ?_, ?_⟩
    · simp [Build.cancel, hp, Build.PENDING]
    · intro _
      simp [Build.cancel, hp, Build.PENDING]
    · intro hx
      exact absurd hx hr
  · by_cases hr : self.status = "running"
    · refine ⟨?_, ?_, ?_⟩
      · cases cancelRequestRaises <;> simp [Build.cancel, hr, Build.PENDING]
      · intro hx
        exact absurd hx hp
      · intro _
        cases cancelRequestRaises
        · constructor
          · simp [Build.cancel, hr, Build.PENDING]
          · intro hx
            cases hx
        · constructor
          · simp [Build.cancel, hr, Build.PENDING]
          · intro _
            simp [Build.cancel, hr, Build.PENDING]
    · have hp2 : ¬ self.status = "pending" := hp
      refine ⟨?_, ?_, ?_⟩
      · simp [Build.cancel, hp2, hr, Build.PENDING]
      · intro hx
        exact absurd hx hp
      · intro hx
        exact absurd hx hr

/-- Witness for C4: a pending build with a slave is cancelled with the
    full effects, a running build whose cancel request raises returns
    false, and a successful build raises ImpossibleCancellation. -/
theorem build_cancel_spec_witness :
    (Build.mk 1 "A" "pending" 1 []).cancel true false =
      (CancelOutcome.returned true,
       ⟨false, true, "cancelled", true, true⟩) ∧
    ((Build.mk 2 "A" "running" 1 []).cancel false true).1 =
      CancelOutcome.returned false ∧
    ((Build.mk 3 "A" "success" 1 []).cancel false false).1 =
      CancelOutcome.impossibleCancellation :=
  ⟨(build_cancel_spec (Build.mk 1 "A" "pending" 1 []) true false).2.1 rfl,
   (((build_cancel_spec (Build.mk 2 "A" "running" 1 []) false true).2.2
      rfl).2 rfl),
   (build_cancel_spec (Build.mk 3 "A" "success" 1 []) false false).1.mpr
     (by decide)⟩

/-! ## Parallelism admission (`BuildExecuter._execute_builds` /
    `_run_build`) -/

/-- The `limit_ok` computation of `BuildExecuter._execute_builds`:
    `self._running < parallel if parallel else True`. -/
def limitOk (parallel running : Nat) : Bool :=
  if parallel ≠ 0 then decide (running < parallel) else true

/-- Admission condition of the executer: `if ready and limit_ok`
    launches `_run_build`; Python `ready` is truthy only when it is
    `True` (`None` and `False` are falsy). -/
def admissionOk (ready : Option Bool) (parallel running : Nat) : Bool :=
  (ready == some true) && limitOk parallel running

/-- Scheduling state of one `BuildExecuter`: `pending` counts
    `_run_build` tasks that `ensure_future` has scheduled but that
    have not yet executed their first statement (the `_running`
    increment); `running` is the `_running` counter, i.e. the tasks
    past the increment and before the `finally` decrement. -/
structure ExecState where
  pending : Nat
  running : Nat
deriving DecidableEq, Repr

/-- The executer's steps on that state, with the two-phase launch the
    code actually performs: `schedule` is the admission check plus
    `ensure_future(self._run_build(build))` — it reads the current
    `_running` but only schedules the task; `start` is the scheduled
    task's first step, `self._running += 1`; `finish` is the
    decrement in the `finally` block.  Admission passes may overlap
    (each `_run_build` schedules a follow-up `_execute_builds`), so
    several `schedule` steps can occur before the matching `start`
    steps run. -/
inductive ExecuterStep (parallel : Nat) : ExecState → ExecState → Prop
  | schedule (p r : Nat) (ready : Option Bool)
      (h : admissionOk ready parallel r = true) :
      ExecuterStep parallel ⟨p, r⟩ ⟨p + 1, r⟩
  | start (p r : Nat) : ExecuterStep parallel ⟨p + 1, r⟩ ⟨p, r + 1⟩
  | finish (p r : Nat) : ExecuterStep parallel ⟨p, r + 1⟩ ⟨p, r⟩

/-- States reachable by the executer from `pending = 0`,
    `_running = 0`. -/
inductive ExecuterReachable (parallel : Nat) : ExecState → Prop
  | init : ExecuterReachable parallel ⟨0, 0⟩
  | step {a b : ExecState} : ExecuterReachable parallel a →
      ExecuterStep parallel a b → ExecuterReachable parallel b

/-- Counterexample to C5 as stated: with `parallel_builds = 1`, two
    admission checks in overlapping `_execute_builds` passes can both
    read `_running = 0` before either scheduled `_run_build` task has
    performed its increment; once both tasks start, two `_run_build`
    tasks are active, exceeding the cap of 1. -/
theorem executer_cap_claim_counterexample :
    ExecuterReachable 1 ⟨0, 2⟩ ∧ ¬((2 : Nat) ≤ 1) := by
  constructor
  · have h1 : ExecuterStep 1 ⟨0, 0⟩ ⟨1, 0⟩ :=
      ExecuterStep.schedule 0 0 (some true) (by decide)
    have h2 : ExecuterStep 1 ⟨1, 0⟩ ⟨2, 0⟩ :=
      ExecuterStep.schedule 1 0 (some true) (by decide)
    have h3 : ExecuterStep 1 ⟨2, 0⟩ ⟨1, 1⟩ := ExecuterStep.start 1 0
    have h4 : ExecuterStep 1 ⟨1, 1⟩ ⟨0, 2⟩ := ExecuterStep.start 0 1
    exact (((ExecuterReachable.init.step h1).step h2).step h3).step h4
  · decide

/-- The serialized sub-model of the executer steps: an admission is
    taken only while no launched task is still pending its increment,
    i.e. each admitted launch increments `_running` before any further
    admission check runs.  Its `start` and `finish` steps are those of
    `ExecuterStep`, and its `schedule` is the `ExecuterStep.schedule`
    step with `p = 0`. -/
inductive SerializedStep (parallel : Nat) : ExecState → ExecState → Prop
  | schedule (r : Nat) (ready : Option Bool)
      (h : admissionOk ready parallel r = true) :
      SerializedStep parallel ⟨0, r⟩ ⟨1, r⟩
  | start (p r : Nat) : SerializedStep parallel ⟨p + 1, r⟩ ⟨p, r + 1⟩
  | finish (p r : Nat) : SerializedStep parallel ⟨p, r + 1⟩ ⟨p, r⟩

/-- States reachable through serialized executions. -/
inductive SerializedReachable (parallel : Nat) : ExecState → Prop
  | init : SerializedReachable parallel ⟨0, 0⟩
  | step {a b : ExecState} : SerializedReachable parallel a →
      SerializedStep parallel a b → SerializedReachable parallel b

/-- Helper: every serialized step is a step of the executer. -/
theorem serializedStep_executerStep {parallel : Nat} {a b : ExecState}
    (h : SerializedStep parallel a b) : ExecuterStep parallel a b := by
  cases h with
  | schedule r ready hadm => exact ExecuterStep.schedule 0 r ready hadm
  | start p r => exact ExecuterStep.start p r
  | finish p r => exact ExecuterStep.finish p r

/-- C5 (amended): a build is launched only when `is_ready2run`
    returned true and the limit allows (`parallel_builds` 0 always
    allows, otherwise only while the `_running` value read at the
    check is strictly below it); since the increment runs only when
    the scheduled `_run_build` task first executes, overlapping
    admission passes can over-admit (see the counterexample), and the
    never-more-than-k cap holds for the serialized executions in
    which each admitted launch increments the counter before any
    further admission check. -/
theorem executer_admission_serialized_cap :
    (∀ (ready : Option Bool) (parallel running : Nat),
      admissionOk ready parallel running = true ↔
        (ready = some true ∧ (parallel = 0 ∨ running < parallel))) ∧
    (∀ (k : Nat) (s : ExecState), k ≠ 0 → SerializedReachable k s →
      s.running ≤ k ∧ s.pending + s.running ≤ k) := by
  constructor
  · intro ready parallel running
    by_cases hp : parallel = 0
    · simp [admissionOk, limitOk, hp]
    · simp [admissionOk, limitOk, hp]
  · intro k s hk h
    have hsum : s.pending + s.running ≤ k := by
      induction h with
      | init => exact Nat.zero_le k
      | step _ hs ih =>
        cases hs with
        | schedule r ready hadm =>
          have hlim := (Bool.and_eq_true _ _ |>.mp hadm).2
          unfold limitOk at hlim
          rw [if_pos hk] at hlim
          have hr : r < k := of_decide_eq_true hlim
          simp only
          omega
        | start p r =>
          simp only at ih ⊢
          omega
        | finish p r =>
          simp only at ih ⊢
          omega
    exact ⟨Nat.le_trans (Nat.le_add_left s.running s.pending) hsum, hsum⟩

/-- Witness for the amended C5: with cap 2, the serialized state with
    one running build is reachable (one admitted launch followed by
    its increment) and is below the cap. -/
theorem executer_admission_serialized_cap_witness :
    (2 : Nat) ≠ 0 ∧ SerializedReachable 2 ⟨0, 1⟩ ∧
      (ExecState.mk 0 1).running ≤ 2 ∧
      (ExecState.mk 0 1).pending + (ExecState.mk 0 1).running ≤ 2 :=
  have hreach : SerializedReachable 2 ⟨0, 1⟩ :=
    (SerializedReachable.init.step
      (SerializedStep.schedule 0 (some true) (by decide))).step
      (SerializedStep.start 0 0)
  have hcap :=
    executer_admission_serialized_cap.2 2 ⟨0, 1⟩ (by decide) hreach
  ⟨by decide, hreach, hcap.1, hcap.2⟩

/-! ## Revision processing (`BuildManager.add_builds`,
    `BuildManager.get_builders`) -/

/-- What the manager reads from a `RepositoryRevision`:
    `createBuilds` is `revision.create_builds()`, `hasConfig` the
    truthiness of `revision.config`, `buildersFallback` the
    `builders_fallback` branch name ("" models the falsy unset
    value). -/
structure Revision where
  branch : String := "master"
  commit : String := ""
  createBuilds : Bool := true
  hasConfig : Bool := true
  buildersFallback : String := ""
deriving DecidableEq, Repr

/-- Per-revision observable effect of `add_builds`: the status the
    created buildset is persisted with, whether it was saved, whether
    the `buildset_added` signal fired for it, whether it was appended
    to the repository build queue (which is also what triggers the
    consumer loop), and how many builds were added to it. -/
structure AddBuildsEffect where
  bsStatus : String
  saved : Bool
  emittedBuildsetAdded : Bool
  enqueued : Bool
  buildsAdded : Nat
deriving DecidableEq, Repr

/-- Translation of the per-revision branching of
    `BuildManager.add_builds`: skip revisions with
    `create_builds()` false (no buildset at all); for a revision
    without config set the buildset status to `NO_CONFIG`, save it,
    send `buildset_added` and skip queueing; otherwise delegate to
    `add_builds_for_buildset`, which adds one build per resolved
    builder, enqueues the buildset and sends `buildset_added`.
    `resolve` stands for the builder resolution
    (`get_builders` filtered by the revision's include/exclude). -/
def processRevision (resolve : Revision → List Builder) (r : Revision) :
    Option AddBuildsEffect :=
  if ¬ r.createBuilds then none
  else if ¬ r.hasConfig then
    some ⟨BuildSet.NO_CONFIG, true, true, false, 0⟩
  else
    some ⟨"pending", true, true, true, (resolve r).length⟩

/-- Translation of the `add_builds` loop over revisions, paired with
    the revision each effect belongs to. -/
def add_builds (resolve : Revision → List Builder)
    (revisions : List Revision) : List (Revision × AddBuildsEffect) :=
  revisions.filterMap
    (fun r => (processRevision resolve r).map (fun e => (r, e)))

/-- C6: every revision processed by `add_builds` that creates builds
    but has no build config gets a buildset persisted with status
    `no config`, the buildset-added signal, no queue entry and no
    builds; and every such revision in the input produces exactly that
    effect. -/
theorem add_builds_no_config (resolve : Revision → List Builder)
    (revisions : List Revision) :
    (∀ r e, (r, e) ∈ add_builds resolve revisions →
      r.createBuilds = true → r.hasConfig = false →
      e = ⟨BuildSet.NO_CONFIG, true, true, false, 0⟩) ∧
    (∀ r ∈ revisions, r.createBuilds = true → r.hasConfig = false →
      (r, (⟨BuildSet.NO_CONFIG, true, true, false, 0⟩ : AddBuildsEffect)) ∈
        add_builds resolve revisions) := by
  constructor
  · intro r e hmem hcb hcfg
    obtain ⟨a, _, ha⟩ := List.mem_filterMap.mp hmem
    cases hpa : processRevision resolve a with
    | none => rw [hpa] at ha; cases ha
    | some e2 =>
      rw [hpa] at ha
      have ⟨har, hae⟩ := Prod.mk.injEq .. |>.mp (Option.some.inj ha)
      rw [har] at hpa
      rw [← hae]
      unfold processRevision at hpa
      rw [hcb, hcfg] at hpa
      simpa using hpa.symm
  · intro r hr hcb hcfg
    apply List.mem_filterMap.mpr
    refine ⟨r, hr, ?_⟩
    unfold processRevision
    rw [hcb, hcfg]
    simp

/-- Witness for C6: a revision with builds to create and no config
    yields exactly the no-config effect. -/
theorem add_builds_no_config_witness :
    (Revision.mk "master" "c1" true false "").createBuilds = true ∧
    (Revision.mk "master" "c1" true false "").hasConfig = false ∧
    ((Revision.mk "master" "c1" true false ""),
      (⟨BuildSet.NO_CONFIG, true, true, false, 0⟩ : AddBuildsEffect)) ∈
      add_builds (fun _ => []) [Revision.mk "master" "c1" true false ""] :=
  ⟨rfl, rfl,
   (add_builds_no_config (fun _ => []) [Revision.mk "master" "c1" true false ""]).2
     (Revision.mk "master" "c1" true false "")
     (List.mem_singleton.mpr rfl) rfl rfl⟩

/-! ## Builder resolution (`BuildManager.get_builders`,
    `BuildManager._filter_builders`) -/

/-- Python exceptions distinguished by `get_builders`: the
    `AttributeError` its `except` clause catches, and any other
    exception class a malformed config might raise. -/
inductive PyExc
  | attributeError
  | otherError
deriving DecidableEq, Repr

/-- One entry of the builders configuration returned by
    `list_builders_from_config`: its name and `triggered_by`. -/
structure BuilderConf where
  name : String
  triggered_by : List BuildTrigger := []
deriving DecidableEq, Repr

/-- Truthiness of the optional include/exclude lists
    (`if include: ... elif exclude: ...`): None and the empty list are
    falsy. -/
def truthyList : Option (List String) → Bool
  | none => false
  | some l => !l.isEmpty

/-- Translation of `BuildManager._filter_builders`: whitelist by
    `inc` when truthy, else blacklist by `exc` when truthy. -/
def filter_builders (builders_conf : List BuilderConf)
    (inc exc : Option (List String)) : List BuilderConf :=
  if truthyList inc then
    builders_conf.filter (fun b => (inc.getD []).contains b.name)
  else if truthyList exc then
    builders_conf.filter (fun b => !(exc.getD []).contains b.name)
  else builders_conf

/-- The builder construction loop of `get_builders`: for the i-th
    surviving conf entry, get-or-create `Builder(name, position=i)`
    and attach its `triggered_by` from the conf. -/
def mkBuildersFromConf (bc : List BuilderConf) : List Builder :=
  bc.enum.map (fun p => ⟨p.2.name, p.2.triggered_by, p.1⟩)

/-- Translation of `BuildManager.get_builders`.  The external
    `list_builders_from_config` (toxiccore) is passed in as
    `listConf`, mapping a branch to either the builder confs or the
    exception it raises.  Only `AttributeError` from the first listing
    is caught (`except AttributeError`); the fallback listing sits
    outside the `try` block, so its exceptions always propagate. -/
def get_builders (listConf : String → Except PyExc (List BuilderConf))
    (rev : Revision) (inc exc : Option (List String)) :
    Except PyExc (List Builder × String) :=
  let origin := rev.branch
  match listConf rev.branch with
  | Except.error PyExc.attributeError => Except.ok ([], origin)
  | Except.error e => Except.error e
  | Except.ok builders_conf =>
    if builders_conf.isEmpty && !(rev.buildersFallback == "") then
      match listConf rev.buildersFallback with
      | Except.error e => Except.error e
      | Except.ok bc2 =>
        Except.ok (mkBuildersFromConf (filter_builders bc2 inc exc),
          rev.buildersFallback)
    else
      Except.ok (mkBuildersFromConf (filter_builders builders_conf inc exc),
        origin)

/-- Counterexample to C7 as stated: when listing the builders of a
    malformed config raises anything but `AttributeError` (modelled by
    `PyExc.otherError`), `get_builders` propagates the exception
    instead of returning the empty builder list with the revision
    branch. -/
theorem get_builders_claim_counterexample :
    get_builders (fun _ => Except.error PyExc.otherError)
      (Revision.mk "master" "c1" true true "") none none =
      Except.error PyExc.otherError ∧
    get_builders (fun _ => Except.error PyExc.otherError)
      (Revision.mk "master" "c1" true true "") none none ≠
      Except.ok ([], "master") :=
  ⟨rfl, by intro h; exact Except.noConfusion h⟩

/-- C7 (amended): `get_builders` returns the empty builder list with
    origin = revision.branch when the initial listing raises
    `AttributeError`; any other exception propagates; when the initial
    listing succeeds with an empty list and the revision declares a
    builders fallback, it retries with the fallback branch and, when
    that succeeds, returns its (filtered) builders with origin set to
    the fallback branch. -/
theorem get_builders_spec (listConf : String → Except PyExc (List BuilderConf))
    (rev : Revision) (inc exc : Option (List String)) :
    (listConf rev.branch = Except.error PyExc.attributeError →
      get_builders listConf rev inc exc = Except.ok ([], rev.branch)) ∧
    (∀ e, listConf rev.branch = Except.error e → e ≠ PyExc.attributeError →
      get_builders listConf rev inc exc = Except.error e) ∧
    (∀ bc2, listConf rev.branch = Except.ok [] → rev.buildersFallback ≠ "" →
      listConf rev.buildersFallback = Except.ok bc2 →
      get_builders listConf rev inc exc =
        Except.ok (mkBuildersFromConf (filter_builders bc2 inc exc),
          rev.buildersFallback)) := by
  refine ⟨?_, ?_, ?_⟩
  · intro h
    simp [get_builders, h]
  · intro e he hne
    cases e with
    | attributeError => exact absurd rfl hne
    | otherError => simp [get_builders, he]
  · intro bc2 hok hfb hok2
    have hfb2 : (rev.buildersFallback == "") = false := by
      simpa using hfb
    simp [get_builders, hok, hok2, hfb2]

/-- Witness for the amended C7: with a config listing no builders on
    master and one builder on the declared fallback branch stable,
    `get_builders` returns that builder with origin stable. -/
theorem get_builders_spec_witness :
    ((fun br => if br == "master" then Except.ok []
        else Except.ok [BuilderConf.mk "b1" []]) "master" =
      (Except.ok [] : Except PyExc (List BuilderConf))) ∧
    (Revision.mk "master" "c1" true true "stable").buildersFallback ≠ "" ∧
    ((fun br => if br == "master" then Except.ok []
        else Except.ok [BuilderConf.mk "b1" []])
      (Revision.mk "master" "c1" true true "stable").buildersFallback =
      (Except.ok [BuilderConf.mk "b1" []] :
        Except PyExc (List BuilderConf))) ∧
    get_builders
      (fun br => if br == "master" then Except.ok []
        else Except.ok [BuilderConf.mk "b1" []])
      (Revision.mk "master" "c1" true true "stable") none none =
      Except.ok (mkBuildersFromConf
        (filter_builders [BuilderConf.mk "b1" []] none none), "stable") :=
  ⟨rfl, by decide, rfl,
   (get_builders_spec
      (fun br => if br == "master" then Except.ok []
        else Except.ok [BuilderConf.mk "b1" []])
      (Revision.mk "master" "c1" true true "stable") none none).2.2
     [BuilderConf.mk "b1" []] rfl (by decide) rfl⟩

/-! ## Build stream consumption (`BuildClient.build`) -/

/-- The body of a streamed response frame when the frame is usable:
    a frame is `none` when the response is falsy (Python `not r`) and
    `some none` when its body is missing or None
    (`r.get('body') is None`). -/
def goodFrameBody : Option (Option String) → Option String
  | some (some b) => some b
  | _ => none

/-- Translation of the response loop of `BuildClient.build`: read
    frames in order, stop at the first falsy frame or frame without a
    body, and yield each remaining frame's body. -/
def buildStreamBodies : List (Option (Option String)) → List String
  | [] => []
  | r :: rest =>
    match r with
    | none => []
    | some none => []
    | some (some body) => body :: buildStreamBodies rest

/-- C9: `BuildClient.build` yields exactly the bodies of the frames,
    in order, up to but not including the first frame that is empty or
    has a missing body. -/
theorem build_stream_bodies_spec (frames : List (Option (Option String))) :
    buildStreamBodies frames =
      (frames.takeWhile (fun f => (goodFrameBody f).isSome)).filterMap
        goodFrameBody := by
  induction frames with
  | nil => rfl
  | cons f rest ih =>
    match f with
    | none => rfl
    | some none => rfl
    | some (some b) =>
      simp only [buildStreamBodies, List.takeWhile_cons, goodFrameBody,
        Option.isSome_some, if_true, List.filterMap_cons, ih]

end Toxic
